import Mathlib

set_option maxRecDepth 8192

/-!
Verification of the response-normalization layer of the meeting-notes
summarizer backend (`src/app.py`).  The Python functions
`extract_json_from_response`, `create_analysis_prompt` and the pre-LLM part
of the `/api/analyze` handler are shallowly embedded below.  Python strings
are modelled as `String` / `List Char`; Python dicts coming from `json.loads`
are modelled as association lists with first-position / last-value duplicate
handling, matching CPython dict construction; an uncaught Python exception is
modelled as `none`.  The model of `json.loads` is restricted to integer
number literals and the non-`\u` string escapes; no claim below depends on
floats or `\u` escapes.
-/

/-- The character `{` (kept as a named constant; it is used both by the
regex-span model and by the JSON parser). -/
def openBrace : Char := Char.ofNat 123

/-- The character `}`. -/
def closeBrace : Char := Char.ofNat 125

/-- JSON values as produced by `json.loads`, with Python's `None`, `bool`,
`int`, `str`, `list` and `dict` as the carriers. -/
inductive Json where
  | null : Json
  | bool : Bool → Json
  | num : Int → Json
  | str : String → Json
  | arr : List Json → Json
  | obj : List (String × Json) → Json

/-- Python `key in d` for a dict modelled as an association list. -/
def containsKey (kvs : List (String × Json)) (k : String) : Bool :=
  kvs.any (fun kv => kv.1 = k)

/-- Python `d[key]` lookup (first binding; the parser keeps keys unique). -/
def lookupKey (kvs : List (String × Json)) (k : String) : Option Json :=
  match kvs with
  | [] => none
  | (k0, v0) :: t => if k0 = k then some v0 else lookupKey t k

/-- Python `d[key] = v`: replace the first binding in place, else append, matching
CPython dict insertion semantics. -/
def insertKey (kvs : List (String × Json)) (k : String) (v : Json) :
    List (String × Json) :=
  match kvs with
  | [] => [(k, v)]
  | (k0, v0) :: t => if k0 = k then (k0, v) :: t else (k0, v0) :: insertKey t k v

/-- Characters stripped by Python's `str.strip()` (ASCII fragment). -/
def isPyWs (c : Char) : Bool :=
  c = ' ' || c = '\t' || c = '\n' || c = '\r' || c = Char.ofNat 11 || c = Char.ofNat 12

/-- Python `str.strip()` on a character list. -/
def pyStripL (cs : List Char) : List Char :=
  ((cs.dropWhile isPyWs).reverse.dropWhile isPyWs).reverse

/-- Python `str.strip()`. -/
def pyStrip (s : String) : String := String.mk (pyStripL s.toList)

/-- Python `item.count(' - ')`: number of non-overlapping occurrences of the
delimiter space-hyphen-space, scanned left to right. -/
def countDelim (cs : List Char) : Nat :=
  match cs with
  | c1 :: c2 :: c3 :: rest =>
    if c1 = ' ' ∧ c2 = '-' ∧ c3 = ' ' then 1 + countDelim rest
    else countDelim (c2 :: c3 :: rest)
  | _ => 0

/-- Python `item.split(' - ')`: split on non-overlapping occurrences of the
delimiter, scanned left to right. -/
def splitDelim (cs : List Char) : List (List Char) :=
  match cs with
  | c1 :: c2 :: c3 :: rest =>
    if c1 = ' ' ∧ c2 = '-' ∧ c3 = ' ' then [] :: splitDelim rest
    else
      match splitDelim (c2 :: c3 :: rest) with
      | [] => [[c1]]
      | l :: ls => (c1 :: l) :: ls
  | _ => [cs]

/-- The apostrophe character. -/
def singleQuote : Char := Char.ofNat 39

/-- Lowercase hex digit for `n < 16`. -/
def hexDigit (n : Nat) : Char :=
  if n < 10 then Char.ofNat (48 + n) else Char.ofNat (87 + n)

/-- One character of a Python `repr` of a string, `q` being the chosen
quote character. -/
def pyEscChar (q : Char) (c : Char) : List Char :=
  if c = '\\' then ['\\', '\\']
  else if c = q then ['\\', q]
  else if c = '\n' then ['\\', 'n']
  else if c = '\r' then ['\\', 'r']
  else if c = '\t' then ['\\', 't']
  else if c.toNat < 32 ∨ c.toNat = 127 then
    ['\\', 'x', hexDigit (c.toNat / 16), hexDigit (c.toNat % 16)]
  else [c]

/-- Python `repr` of a string: single quotes unless the string contains a
single quote and no double quote. -/
def pyReprStr (s : String) : String :=
  let q : Char :=
    if s.toList.contains singleQuote ∧ ¬ s.toList.contains '"' then '"'
    else singleQuote
  String.mk (q :: s.toList.flatMap (pyEscChar q) ++ [q])

mutual

/-- Python `repr` of a JSON-derived value. -/
def pyRepr : Json → String
  | Json.null => "None"
  | Json.bool true => "True"
  | Json.bool false => "False"
  | Json.num n => toString n
  | Json.str s => pyReprStr s
  | Json.arr l => "[" ++ String.intercalate ", " (pyReprList l) ++ "]"
  | Json.obj kvs => "\x7b" ++ String.intercalate ", " (pyReprPairs kvs) ++ "\x7d"

/-- Python `repr` of the elements of a list value. -/
def pyReprList : List Json → List String
  | [] => []
  | j :: t => pyRepr j :: pyReprList t

/-- Python `repr` of the entries of a dict value. -/
def pyReprPairs : List (String × Json) → List String
  | [] => []
  | (k, v) :: t => (pyReprStr k ++ ": " ++ pyRepr v) :: pyReprPairs t

end

/-- Python `str()` of a JSON-derived value. -/
def pyStr (j : Json) : String :=
  match j with
  | Json.str s => s
  | j => pyRepr j

/-- Python truthiness of a JSON-derived value. -/
def pyTruthy : Json → Bool
  | Json.null => false
  | Json.bool b => b
  | Json.num n => n ≠ 0
  | Json.str s => s ≠ ""
  | Json.arr l => ¬ l.isEmpty
  | Json.obj kvs => ¬ kvs.isEmpty

/-- Python `for item in v`: the sequence of items produced by iterating a
JSON-derived value, or `none` for the `TypeError` on non-iterables.
Iterating a string yields its characters as one-character strings; iterating
a dict yields its keys. -/
def pyIterElems : Json → Option (List Json)
  | Json.arr l => some l
  | Json.str s => some (s.toList.map (fun c => Json.str (String.mk [c])))
  | Json.obj kvs => some (kvs.map (fun kv => Json.str kv.1))
  | _ => none

/-- JSON whitespace accepted by `json.loads` between tokens. -/
def isJsonWs (c : Char) : Bool :=
  c = ' ' || c = '\t' || c = '\n' || c = '\r'

/-- Skip JSON whitespace. -/
def skipWs (cs : List Char) : List Char := cs.dropWhile isJsonWs

/-- Value of a JSON string escape character, `none` when invalid (the
`\uXXXX` form is outside this model). -/
def escChar (e : Char) : Option Char :=
  if e = '"' then some '"'
  else if e = '\\' then some '\\'
  else if e = '/' then some '/'
  else if e = 'n' then some '\n'
  else if e = 't' then some '\t'
  else if e = 'r' then some '\r'
  else if e = 'b' then some (Char.ofNat 8)
  else if e = 'f' then some (Char.ofNat 12)
  else none

/-- Parse the body of a JSON string literal (after the opening quote);
returns the decoded characters and the input after the closing quote. -/
def parseStringLit : List Char → Option (List Char × List Char)
  | [] => none
  | c :: rest =>
    if c = '"' then some ([], rest)
    else if c = '\\' then
      match rest with
      | [] => none
      | e :: rest2 =>
        match escChar e with
        | some ch =>
          match parseStringLit rest2 with
          | some (s, r) => some (ch :: s, r)
          | none => none
        | none => none
    else if c.toNat < 32 then none
    else
      match parseStringLit rest with
      | some (s, r) => some (c :: s, r)
      | none => none

/-- Parse an unsigned JSON integer literal (this model rejects fraction and
exponent parts; no claim depends on float literals). -/
def parseNatPart (cs : List Char) : Option (Nat × List Char) :=
  let digits := cs.takeWhile Char.isDigit
  let rest := cs.dropWhile Char.isDigit
  if digits.isEmpty then none
  else if digits.headD '0' = '0' ∧ digits.length > 1 then none
  else if rest.headD 'x' = '.' ∨ rest.headD 'x' = 'e' ∨ rest.headD 'x' = 'E' then none
  else some (digits.foldl (fun a c => a * 10 + (c.toNat - 48)) 0, rest)

/-- Parse a JSON number (integer model). -/
def parseNumber (cs : List Char) : Option (Json × List Char) :=
  match cs with
  | [] => none
  | c :: rest =>
    if c = '-' then
      match parseNatPart rest with
      | some (n, r) => some (Json.num (-(n : Int)), r)
      | none => none
    else
      match parseNatPart cs with
      | some (n, r) => some (Json.num (n : Int), r)
      | none => none

mutual

/-- Parse one JSON value, fuel-bounded. -/
def parseValue (fuel : Nat) (cs : List Char) : Option (Json × List Char) :=
  match fuel with
  | 0 => none
  | fuel + 1 =>
    match skipWs cs with
    | [] => none
    | c :: rest =>
      if c = '"' then
        match parseStringLit rest with
        | some (s, r) => some (Json.str (String.mk s), r)
        | none => none
      else if c = openBrace then
        match parseObjBody fuel rest with
        | some (m, r) => some (Json.obj m, r)
        | none => none
      else if c = '[' then
        match parseArrBody fuel rest with
        | some (l, r) => some (Json.arr l, r)
        | none => none
      else if c = 't' then
        match rest with
        | 'r' :: 'u' :: 'e' :: r => some (Json.bool true, r)
        | _ => none
      else if c = 'f' then
        match rest with
        | 'a' :: 'l' :: 's' :: 'e' :: r => some (Json.bool false, r)
        | _ => none
      else if c = 'n' then
        match rest with
        | 'u' :: 'l' :: 'l' :: r => some (Json.null, r)
        | _ => none
      else parseNumber (c :: rest)

/-- Parse an object body (input directly after the opening brace). -/
def parseObjBody (fuel : Nat) (cs : List Char) :
    Option (List (String × Json) × List Char) :=
  match fuel with
  | 0 => none
  | fuel + 1 =>
    match skipWs cs with
    | [] => none
    | c :: rest => if c = closeBrace then some ([], rest) else parsePairs fuel [] cs

/-- Parse one or more `"key": value` pairs followed by `,` or the closing
brace, building the dict with CPython duplicate-key semantics. -/
def parsePairs (fuel : Nat) (acc : List (String × Json)) (cs : List Char) :
    Option (List (String × Json) × List Char) :=
  match fuel with
  | 0 => none
  | fuel + 1 =>
    match skipWs cs with
    | '"' :: rest =>
      match parseStringLit rest with
      | some (k, r1) =>
        match skipWs r1 with
        | ':' :: r2 =>
          match parseValue fuel r2 with
          | some (v, r3) =>
            let acc2 := insertKey acc (String.mk k) v
            match skipWs r3 with
            | c :: r4 =>
              if c = ',' then parsePairs fuel acc2 r4
              else if c = closeBrace then some (acc2, r4)
              else none
            | [] => none
          | none => none
        | _ => none
      | none => none
    | _ => none

/-- Parse an array body (input directly after the opening bracket). -/
def parseArrBody (fuel : Nat) (cs : List Char) : Option (List Json × List Char) :=
  match fuel with
  | 0 => none
  | fuel + 1 =>
    match skipWs cs with
    | [] => none
    | c :: rest => if c = ']' then some ([], rest) else parseItems fuel [] cs

/-- Parse one or more array elements followed by `,` or the closing
bracket. -/
def parseItems (fuel : Nat) (acc : List Json) (cs : List Char) :
    Option (List Json × List Char) :=
  match fuel with
  | 0 => none
  | fuel + 1 =>
    match parseValue fuel cs with
    | some (v, r) =>
      match skipWs r with
      | c :: r2 =>
        if c = ',' then parseItems fuel (acc ++ [v]) r2
        else if c = ']' then some (acc ++ [v], r2)
        else none
      | [] => none
    | none => none

end

/-- Model of `json.loads`: parse a complete JSON document, allowing only
trailing whitespace after the value. -/
def loads (s : String) : Option Json :=
  let cs := s.toList
  match parseValue (cs.length * 3 + 16) cs with
  | some (v, r) => if (skipWs r).isEmpty then some v else none
  | none => none

/-- The backquote character. -/
def backquote : Char := Char.ofNat 96

/-- The fenced-code-block marker (three backquotes), as a character list. -/
def fenceL : List Char := [backquote, backquote, backquote]

/-- Python `text.split('\n')` on a character list. -/
def splitLines (cs : List Char) : List (List Char) :=
  match cs with
  | [] => [[]]
  | c :: rest =>
    match splitLines rest with
    | [] => [[c]]
    | l :: ls => if c = '\n' then [] :: l :: ls else (c :: l) :: ls

/-- Python `'\n'.join(lines)` on character lists. -/
def joinLines : List (List Char) → List Char
  | [] => []
  | [l] => l
  | l :: ls => l ++ '\n' :: joinLines ls

/-- Line 62-63 of `app.py`: `if lines[0].startswith('```'): lines = lines[1:]`. -/
def dropOpeningFence (lines : List (List Char)) : List (List Char) :=
  if fenceL.isPrefixOf (lines.headD []) then lines.drop 1 else lines

/-- Line 64-65 of `app.py`: `if lines and lines[-1].startswith('```'):
lines = lines[:-1]`. -/
def dropClosingFence (lines : List (List Char)) : List (List Char) :=
  if lines ≠ [] ∧ fenceL.isPrefixOf (lines.getLastD []) then lines.dropLast
  else lines

/-- Lines 58-66 of `app.py`: if the (already stripped) text starts with a
code-fence marker, drop the first line and, when the last line also starts
with a marker, drop it too. -/
def stripCodeFence (cleaned : String) : String :=
  if fenceL.isPrefixOf cleaned.toList then
    String.mk (joinLines (dropClosingFence (dropOpeningFence (splitLines cleaned.toList))))
  else cleaned

/-- Lines 57-66 of `app.py`: `cleaned = response_text.strip()` followed by
the code-fence removal. -/
def cleanedText (response_text : String) : String :=
  stripCodeFence (pyStrip response_text)

/-- Line 69 of `app.py`: `re.search(r'\{[\s\S]*\}', cleaned)`.  The greedy
regex matches from the first `{` that is followed by some `}` through the
last `}` of the text. -/
def jsonMatchL (cs : List Char) : Option (List Char) :=
  if (((cs.dropWhile (fun c => ¬ c = openBrace)).reverse.dropWhile
        (fun c => ¬ c = closeBrace)).reverse).isEmpty then none
  else some (((cs.dropWhile (fun c => ¬ c = openBrace)).reverse.dropWhile
    (fun c => ¬ c = closeBrace)).reverse)

/-- The regex match on a `String`. -/
def jsonMatch (s : String) : Option String := (jsonMatchL s.toList).map String.mk

/-- Line 75 of `app.py`: the required keys, in source order. -/
def required_keys : List String :=
  ["meeting_summary", "participants", "key_decisions", "action_items",
    "discussion_points"]

/-- Line 81 of `app.py`: the three multi-item list fields, in source order. -/
def split_keys : List String :=
  ["key_decisions", "action_items", "discussion_points"]

/-- Lines 77-78 of `app.py`: one iteration of the required-key completion
loop. -/
def ensureStep (acc : List (String × Json)) (key : String) : List (String × Json) :=
  if containsKey acc key then acc
  else insertKey acc key
    (if key ≠ "meeting_summary" then Json.arr []
     else Json.str "No summary available")

/-- Lines 76-78 of `app.py`: insert a default for every absent required
key. -/
def ensureKeys (parsed : List (String × Json)) : List (String × Json) :=
  required_keys.foldl ensureStep parsed

/-- Lines 84-93 of `app.py`, one loop iteration: the strings contributed to
`cleaned_items` by a single element of a list field. -/
def splitConcatenated (item : Json) : List Json :=
  match item with
  | Json.str s =>
    let l := s.toList
    if 1 ≤ countDelim l ∧ 2 < countDelim l then
      (((splitDelim l).map pyStripL).filter (fun p => ¬ p.isEmpty)).map
        (fun p => Json.str (String.mk p))
    else [Json.str (String.mk (pyStripL l))]
  | j => [Json.str (pyStr j)]

/-- Lines 82-94 of `app.py` for one key of `split_keys`: when the key is
present and its value truthy, iterate the value (a `TypeError` on a truthy
non-iterable is `none`) and replace it by the rebuilt `cleaned_items`
list. -/
def deconcatStep (parsed : List (String × Json)) (key : String) :
    Option (List (String × Json)) :=
  if containsKey parsed key ∧ pyTruthy ((lookupKey parsed key).getD Json.null) then
    match pyIterElems ((lookupKey parsed key).getD Json.null) with
    | none => none
    | some items =>
      some (insertKey parsed key (Json.arr (items.flatMap splitConcatenated)))
  else some parsed

/-- Lines 102-108 of `app.py`: the fallback record, built from the raw
response text. -/
def fallbackJson (response_text : String) : Json :=
  Json.obj
    [("key_decisions",
        Json.arr [Json.str "Unable to parse LLM response - JSON format error"]),
      ("action_items",
        Json.arr [Json.str "Try analyzing again or use a different model"]),
      ("discussion_points",
        Json.arr [Json.str ("Raw response: "
          ++ String.mk (response_text.toList.take 300) ++ "...")]),
      ("participants", Json.arr []),
      ("meeting_summary",
        Json.str "Error: Could not parse the LLM response into structured format")]

/-- Lines 54-108 of `app.py`: `extract_json_from_response`.  `none` models
the uncaught `TypeError` raised when a truthy non-iterable value sits in a
multi-item list field (only `json.JSONDecodeError` is caught by the
source). -/
def extract_json_from_response (response_text : String) : Option Json :=
  match jsonMatch (cleanedText response_text) with
  | some span =>
    match loads span with
    | some (Json.obj parsed) =>
      (split_keys.foldlM deconcatStep (ensureKeys parsed)).map Json.obj
    | some _ => none
    | none => some (fallbackJson response_text)
  | none => some (fallbackJson response_text)

/-- Lines 18-52 of `app.py`: `create_analysis_prompt`. -/
def create_analysis_prompt (transcript : String) : String :=
  "You are a meeting analysis assistant. Analyze this transcript and extract key information.\n\nMeeting Transcript:\n"
  ++ transcript
  ++ "\n\nCRITICAL: Return ONLY valid JSON. No markdown, no explanations, no code blocks. Just the JSON object.\n\nRequired JSON structure:\n\x7b\n    \"meeting_summary\": \"2-3 sentence summary here\",\n    \"participants\": [\"Name1\", \"Name2\"],\n    \"key_decisions\": [\n        \"Decision 1 text here\",\n        \"Decision 2 text here\"\n    ],\n    \"action_items\": [\n        \"Action item 1 with owner and deadline\",\n        \"Action item 2 with owner and deadline\"\n    ],\n    \"discussion_points\": [\n        \"Discussion point 1\",\n        \"Discussion point 2\"\n    ]\n\x7d\n\nRules:\n- Each array item must be a SEPARATE string, not concatenated\n- Extract 3-6 key decisions (major choices made)\n- Extract 3-6 action items (tasks with owners/deadlines)\n- Extract 4-8 discussion points (topics covered)\n- Keep each item to 1-2 sentences maximum\n- List all participant names\n- Return ONLY the JSON object, nothing else"

/-- Outcome of the `/api/analyze` handler before any LLM call. -/
inductive PreLLM where
  | reject (status : Nat) (error : String) : PreLLM
  | invoke (prompt : String) : PreLLM
deriving DecidableEq

/-- Lines 161-167 of `app.py`: the handler rejects an empty/whitespace
transcript with HTTP 400 before building the prompt; otherwise it builds the
prompt for the LLM call. -/
def analyze_meeting_pre (transcript : String) : PreLLM :=
  if pyStrip transcript = "" then PreLLM.reject 400 "Empty transcript"
  else PreLLM.invoke (create_analysis_prompt transcript)

/-- The parsed object the normalizer post-processes, when the pipeline
locates a span that parses as a JSON object. -/
def parsedObjOf (response_text : String) : Option (List (String × Json)) :=
  match jsonMatch (cleanedText response_text) with
  | some span =>
    match loads span with
    | some (Json.obj parsed) => some parsed
    | _ => none
  | none => none

/-- A field value on which the de-concatenation loop cannot raise: skipped
when falsy, iterated otherwise. -/
def iterOkB : Option Json → Bool
  | some v => !pyTruthy v || (pyIterElems v).isSome
  | none => true

/-- Inputs on which the de-concatenation loop cannot raise a `TypeError`:
either no object is located, or every multi-item field of the completed
object is falsy or iterable. -/
def safeInput (response_text : String) : Bool :=
  match jsonMatch (cleanedText response_text) with
  | some span =>
    match loads span with
    | some (Json.obj parsed) =>
      split_keys.all (fun k => iterOkB (lookupKey (ensureKeys parsed) k))
    | some _ => false
    | none => true
  | none => true

/-- Inputs on which the source's hard fallback triggers: no brace span, or
the located span fails to parse. -/
def hardFallbackTriggered (response_text : String) : Bool :=
  match jsonMatch (cleanedText response_text) with
  | some span => (loads span).isNone
  | none => true

/-- Whether the text contains a fence marker anywhere. -/
def hasFenceMarker (s : String) : Bool := decide (List.IsInfix fenceL s.toList)

/-- The last non-empty line of a line list (spec wording for the closing
fence check). -/
def lastNonEmptyLine (lines : List (List Char)) : List Char :=
  (lines.reverse.find? (fun l => !l.isEmpty)).getD []

/-- Closing-line removal as §4.2 step 1 words it: drop the closing line when
the last non-empty line is a fence marker. -/
def specDropClosing (lines : List (List Char)) : List (List Char) :=
  if fenceL.isPrefixOf (lastNonEmptyLine lines) then lines.dropLast else lines

/-- The wrapper-stripping step exactly as §4.2 step 1 words it: remove the
first line, and remove the closing line when the last non-empty line is a
fence marker. -/
def specStripFence (s : String) : String :=
  String.mk (joinLines (specDropClosing ((splitLines s.toList).drop 1)))

/-- Amended per-element de-concatenation behaviour: string elements with
more than two delimiters split-trim-filter; other string elements are kept
trimmed; non-string elements are coerced with `str()` and kept whole. -/
def specSplitElem (item : Json) : List Json :=
  match item with
  | Json.str s =>
    if countDelim s.toList > 2 then
      (((splitDelim s.toList).map pyStripL).filter (fun p => ¬ p.isEmpty)).map
        (fun p => Json.str (String.mk p))
    else [Json.str (String.mk (pyStripL s.toList))]
  | j => [Json.str (pyStr j)]

/-- C4's literal per-element description: coerce non-strings first, then
split whenever the resulting string holds more than two delimiters. -/
def claimSplitElem (item : Json) : List Json :=
  let s := pyStr item
  if countDelim s.toList > 2 then
    (((splitDelim s.toList).map pyStripL).filter (fun p => ¬ p.isEmpty)).map
      (fun p => Json.str (String.mk p))
  else [Json.str (String.mk (pyStripL s.toList))]

/-- C10's description of a string-valued list field: its characters as
single-character strings, each trimmed. -/
def specCharSplit (s : String) : List Json :=
  s.toList.map (fun c => Json.str (pyStrip (String.mk [c])))

/-- Round-trip condition on one multi-item field value: a list of strings,
each already trimmed and holding at most two delimiters. -/
def roundTripOkField : Option Json → Bool
  | some (Json.arr items) =>
    items.all (fun e =>
      match e with
      | Json.str t => countDelim t.toList ≤ 2 && pyStripL t.toList = t.toList
      | _ => false)
  | _ => false

theorem mk_toList (s : String) : String.mk s.toList = s := rfl

theorem toList_mk (l : List Char) : (String.mk l).toList = l := rfl

theorem toList_append (a b : String) : (a ++ b).toList = a.toList ++ b.toList :=
  String.data_append a b

theorem lookupKey_insertKey_self (p : List (String × Json)) (k : String) (v : Json) :
    lookupKey (insertKey p k v) k = some v := by
  induction p with
  | nil => simp [insertKey, lookupKey]
  | cons kv t ih =>
    obtain ⟨k0, v0⟩ := kv
    by_cases h : k0 = k
    · simp [insertKey, lookupKey, h]
    · simp [insertKey, lookupKey, h, ih]

theorem lookupKey_insertKey_ne (p : List (String × Json)) (k k' : String) (v : Json)
    (h : ¬ k = k') : lookupKey (insertKey p k v) k' = lookupKey p k' := by
  induction p with
  | nil => simp [insertKey, lookupKey, h]
  | cons kv t ih =>
    obtain ⟨k0, v0⟩ := kv
    by_cases h0 : k0 = k
    · subst h0
      simp [insertKey, lookupKey, h]
    · simp [insertKey, lookupKey, h0, ih]

theorem insertKey_self_of_lookup (p : List (String × Json)) (k : String) (v : Json)
    (h : lookupKey p k = some v) : insertKey p k v = p := by
  induction p with
  | nil => simp [lookupKey] at h
  | cons kv t ih =>
    obtain ⟨k0, v0⟩ := kv
    by_cases h0 : k0 = k
    · simp [lookupKey, h0] at h
      simp [insertKey, h0, h]
    · simp [lookupKey, h0] at h
      simp [insertKey, h0, ih h]

theorem containsKey_eq_isSome (p : List (String × Json)) (k : String) :
    containsKey p k = (lookupKey p k).isSome := by
  induction p with
  | nil => simp [containsKey, lookupKey]
  | cons kv t ih =>
    obtain ⟨k0, v0⟩ := kv
    by_cases h0 : k0 = k
    · simp [containsKey, lookupKey, h0]
    · simp [containsKey, lookupKey, h0, ← ih]

theorem containsKey_insertKey_self (p : List (String × Json)) (k : String) (v : Json) :
    containsKey (insertKey p k v) k = true := by
  rw [containsKey_eq_isSome, lookupKey_insertKey_self]
  rfl

theorem containsKey_insertKey_of (p : List (String × Json)) (k k' : String) (v : Json)
    (h : containsKey p k' = true) : containsKey (insertKey p k v) k' = true := by
  by_cases hk : k = k'
  · subst hk
    exact containsKey_insertKey_self p k v
  · rw [containsKey_eq_isSome, lookupKey_insertKey_ne p k k' v hk]
    rw [containsKey_eq_isSome] at h
    exact h

theorem dropWhile_len_le (p : Char → Bool) (l : List Char) :
    (List.dropWhile p l).length ≤ l.length := by
  induction l with
  | nil => simp
  | cons a t ih =>
    rw [List.dropWhile_cons]
    by_cases h : p a = true <;> simp [h] <;> omega

theorem dropWhile_eq_self_of_length (p : Char → Bool) (l : List Char)
    (h : (List.dropWhile p l).length = l.length) : List.dropWhile p l = l := by
  induction l with
  | nil => simp
  | cons a t ih =>
    rw [List.dropWhile_cons] at h ⊢
    by_cases hp : p a = true
    · simp [hp] at h
      have := dropWhile_len_le p t
      omega
    · simp [hp]

theorem head_not_of_dropWhile_eq (p : Char → Bool) (l : List Char)
    (h : List.dropWhile p l = l) (c : Char) (hc : l.head? = some c) : p c = false := by
  cases l with
  | nil => simp at hc
  | cons a t =>
    have hac : a = c := by simpa using hc
    subst hac
    rw [List.dropWhile_cons] at h
    by_cases hp : p a = true
    · rw [if_pos hp] at h
      have h1 := dropWhile_len_le p t
      have h2 := congrArg List.length h
      simp at h2
      omega
    · simpa using hp

theorem dropWhile_append_of_all (p : Char → Bool) (l1 l2 : List Char)
    (h : ∀ a ∈ l1, p a = true) :
    List.dropWhile p (l1 ++ l2) = List.dropWhile p l2 := by
  induction l1 with
  | nil => simp
  | cons a t ih =>
    simp only [List.cons_append, List.dropWhile_cons]
    rw [h a (by simp)]
    simp only [if_true]
    exact ih (fun a ha => h a (by simp [ha]))

theorem takeWhile_append_of_all (p : Char → Bool) (l1 l2 : List Char)
    (h : ∀ a ∈ l1, p a = true) :
    (l1 ++ l2).takeWhile p = l1 ++ l2.takeWhile p := by
  induction l1 with
  | nil => simp
  | cons a t ih =>
    simp only [List.cons_append, List.takeWhile_cons]
    rw [h a (by simp)]
    simp only [if_true]
    rw [ih (fun a ha => h a (by simp [ha]))]

theorem pyStripL_eq_self_of (cs : List Char)
    (h1 : ∀ c, cs.head? = some c → isPyWs c = false)
    (h2 : ∀ c, cs.getLast? = some c → isPyWs c = false) :
    pyStripL cs = cs := by
  cases cs with
  | nil => simp [pyStripL]
  | cons a t =>
    have ha : isPyWs a = false := h1 a rfl
    have hA : List.dropWhile isPyWs (a :: t) = a :: t := by
      rw [List.dropWhile_cons, ha]
      simp
    unfold pyStripL
    rw [hA]
    have hrev : ∃ c, (a :: t).getLast? = some c := by
      cases hgl : (a :: t).getLast? with
      | none => simp [List.getLast?_eq_none_iff] at hgl
      | some c => exact ⟨c, rfl⟩
    obtain ⟨c, hcl⟩ := hrev
    have hc : isPyWs c = false := h2 c hcl
    have hrh : (a :: t).reverse.head? = some c := by
      rw [List.head?_reverse]
      exact hcl
    cases hrv : (a :: t).reverse with
    | nil => simp [hrv] at hrh
    | cons b u =>
      rw [hrv] at hrh
      have hbc : b = c := by simpa using hrh
      subst hbc
      rw [List.dropWhile_cons, hc]
      simp only [Bool.false_eq_true, if_false]
      have := congrArg List.reverse hrv
      rw [List.reverse_reverse] at this
      exact this.symm

theorem pyStripL_parts (cs : List Char) (h : pyStripL cs = cs) :
    List.dropWhile isPyWs cs = cs ∧
      List.dropWhile isPyWs cs.reverse = cs.reverse := by
  have hlen := congrArg List.length h
  unfold pyStripL at hlen
  simp only [List.length_reverse] at hlen
  have l1 : (List.dropWhile isPyWs cs).length ≤ cs.length := dropWhile_len_le _ _
  have l2 : (List.dropWhile isPyWs (List.dropWhile isPyWs cs).reverse).length ≤
      (List.dropWhile isPyWs cs).reverse.length := dropWhile_len_le _ _
  simp only [List.length_reverse] at l2
  have hA : List.dropWhile isPyWs cs = cs := by
    apply dropWhile_eq_self_of_length
    omega
  refine ⟨hA, ?_⟩
  unfold pyStripL at h
  rw [hA] at h
  have h2 := congrArg List.reverse h
  rw [List.reverse_reverse] at h2
  exact h2

theorem pyStripL_head_last (cs : List Char) (h : pyStripL cs = cs) :
    (∀ c, cs.head? = some c → isPyWs c = false) ∧
      (∀ c, cs.getLast? = some c → isPyWs c = false) := by
  obtain ⟨hA, hB⟩ := pyStripL_parts cs h
  constructor
  · intro c hc
    exact head_not_of_dropWhile_eq _ _ hA c hc
  · intro c hc
    refine head_not_of_dropWhile_eq _ _ hB c ?_
    rw [List.head?_reverse]
    exact hc

theorem jsonMatchL_whole (cs : List Char) (h1 : cs.head? = some openBrace)
    (h2 : cs.getLast? = some closeBrace) : jsonMatchL cs = some cs := by
  cases cs with
  | nil => simp at h1
  | cons a t =>
    have ha : a = openBrace := by simpa using h1
    subst ha
    have hafter : List.dropWhile (fun c => ¬ c = openBrace) (openBrace :: t) =
        openBrace :: t := by
      rw [List.dropWhile_cons]
      simp
    have hrh : (openBrace :: t).reverse.head? = some closeBrace := by
      rw [List.head?_reverse]; exact h2
    cases hrv : (openBrace :: t).reverse with
    | nil => rw [hrv] at hrh; simp at hrh
    | cons b u =>
      rw [hrv] at hrh
      have hb : b = closeBrace := by simpa using hrh
      subst hb
      have hspan : List.dropWhile (fun c => ¬ c = closeBrace)
          (openBrace :: t).reverse = (openBrace :: t).reverse := by
        rw [hrv, List.dropWhile_cons]
        simp
      unfold jsonMatchL
      rw [hafter, hspan, List.reverse_reverse]
      simp

theorem jsonMatchL_concat (pre obj post : List Char)
    (hpre : ∀ c ∈ pre, ¬ c = openBrace)
    (hpost : ∀ c ∈ post, ¬ c = closeBrace)
    (h1 : obj.head? = some openBrace)
    (h2 : obj.getLast? = some closeBrace) :
    jsonMatchL (pre ++ obj ++ post) = some obj := by
  cases hobj : obj with
  | nil => rw [hobj] at h1; simp at h1
  | cons a t =>
    rw [hobj] at h1 h2
    have ha : a = openBrace := by simpa using h1
    subst ha
    have hafter : List.dropWhile (fun c => ¬ c = openBrace)
        (pre ++ (openBrace :: t) ++ post) = (openBrace :: t) ++ post := by
      rw [List.append_assoc]
      rw [dropWhile_append_of_all _ _ _ (fun a ha => by simpa using hpre a ha)]
      rw [List.cons_append, List.dropWhile_cons]
      simp
    have hrh : (openBrace :: t).reverse.head? = some closeBrace := by
      rw [List.head?_reverse]; exact h2
    cases hrv : (openBrace :: t).reverse with
    | nil => rw [hrv] at hrh; simp at hrh
    | cons b u =>
      rw [hrv] at hrh
      have hb : b = closeBrace := by simpa using hrh
      subst hb
      have hspan : List.dropWhile (fun c => ¬ c = closeBrace)
          ((openBrace :: t) ++ post).reverse = (openBrace :: t).reverse := by
        rw [List.reverse_append]
        rw [dropWhile_append_of_all _ _ _
          (fun a ha => by simpa using hpost a (List.mem_reverse.mp ha))]
        rw [hrv, List.dropWhile_cons]
        simp
      unfold jsonMatchL
      rw [hafter, hspan, List.reverse_reverse]
      simp

theorem fence_not_prefix_of_head (cs : List Char) (c : Char) (h : cs.head? = some c)
    (hc : ¬ c = backquote) : fenceL.isPrefixOf cs = false := by
  cases cs with
  | nil => simp at h
  | cons a t =>
    have hac : a = c := by simpa using h
    subst hac
    simp [fenceL, List.isPrefixOf]
    intro hcon
    exact absurd hcon.symm hc

theorem stripCodeFence_id_of_head (s : String) (c : Char) (h : s.toList.head? = some c)
    (hc : ¬ c = backquote) : stripCodeFence s = s := by
  unfold stripCodeFence
  rw [fence_not_prefix_of_head s.toList c h hc]
  simp

theorem jsonMatch_whole (s : String) (h1 : s.toList.head? = some openBrace)
    (h2 : s.toList.getLast? = some closeBrace) : jsonMatch s = some s := by
  unfold jsonMatch
  rw [jsonMatchL_whole s.toList h1 h2]
  simp [mk_toList]

theorem parsedObjOf_of_head_last (rt : String) (kvs : List (String × Json))
    (hh : (pyStrip rt).toList.head? = some openBrace)
    (hl : (pyStrip rt).toList.getLast? = some closeBrace)
    (hld : loads (pyStrip rt) = some (Json.obj kvs)) :
    parsedObjOf rt = some kvs := by
  unfold parsedObjOf cleanedText
  rw [stripCodeFence_id_of_head (pyStrip rt) openBrace hh (by decide)]
  split
  next span hm =>
    have hspan : span = pyStrip rt := by
      rw [jsonMatch_whole (pyStrip rt) hh hl] at hm
      simpa using hm.symm
    subst hspan
    rw [hld]
  next hm =>
    rw [jsonMatch_whole (pyStrip rt) hh hl] at hm
    simp at hm

theorem extract_eq_of_parsedObj (rt : String) (kvs : List (String × Json))
    (h : parsedObjOf rt = some kvs) :
    extract_json_from_response rt =
      (split_keys.foldlM deconcatStep (ensureKeys kvs)).map Json.obj := by
  unfold parsedObjOf at h
  unfold extract_json_from_response
  split at h
  next hm =>
    split at h
    next parsed heq =>
      simp only [hm, heq]
      have hpk : parsed = kvs := by simpa using h
      subst hpk
      rfl
    next hne heq => simp at h
  next hm => simp at h

theorem lookup_ensureStep_of_contains (p : List (String × Json)) (key k : String)
    (h : containsKey p k = true) :
    lookupKey (ensureStep p key) k = lookupKey p k := by
  unfold ensureStep
  by_cases hc : containsKey p key = true
  · simp [hc]
  · simp only [hc, Bool.false_eq_true, if_false]
    have hk : ¬ key = k := fun he => hc (he ▸ h)
    exact lookupKey_insertKey_ne p key k _ hk

theorem contains_ensureStep_of (p : List (String × Json)) (key k : String)
    (h : containsKey p k = true) :
    containsKey (ensureStep p key) k = true := by
  unfold ensureStep
  by_cases hc : containsKey p key = true
  · rw [if_pos hc]; exact h
  · simp only [hc, Bool.false_eq_true, if_false]
    exact containsKey_insertKey_of p key k _ h

theorem contains_ensureStep_self (p : List (String × Json)) (k : String) :
    containsKey (ensureStep p k) k = true := by
  unfold ensureStep
  by_cases hc : containsKey p k = true
  · rw [if_pos hc]; exact hc
  · simp only [hc, Bool.false_eq_true, if_false]
    exact containsKey_insertKey_self p k _

theorem lookup_foldl_ensure (keys : List String) (p : List (String × Json))
    (k : String) (h : containsKey p k = true) :
    lookupKey (keys.foldl ensureStep p) k = lookupKey p k := by
  induction keys generalizing p with
  | nil => rfl
  | cons key keys ih =>
    rw [List.foldl_cons]
    rw [ih (ensureStep p key) (contains_ensureStep_of p key k h)]
    exact lookup_ensureStep_of_contains p key k h

theorem contains_foldl_ensure_of (keys : List String) (p : List (String × Json))
    (k : String) (h : containsKey p k = true) :
    containsKey (keys.foldl ensureStep p) k = true := by
  induction keys generalizing p with
  | nil => exact h
  | cons key keys ih =>
    rw [List.foldl_cons]
    exact ih (ensureStep p key) (contains_ensureStep_of p key k h)

theorem contains_foldl_ensure_mem (keys : List String) (p : List (String × Json))
    (k : String) (h : k ∈ keys) :
    containsKey (keys.foldl ensureStep p) k = true := by
  induction keys generalizing p with
  | nil => simp at h
  | cons key keys ih =>
    rw [List.foldl_cons]
    rcases List.mem_cons.mp h with he | hm
    · subst he
      exact contains_foldl_ensure_of keys (ensureStep p k) k
        (contains_ensureStep_self p k)
    · exact ih (ensureStep p key) hm

theorem foldl_ensure_id (keys : List String) (p : List (String × Json))
    (h : ∀ k ∈ keys, containsKey p k = true) : keys.foldl ensureStep p = p := by
  induction keys with
  | nil => rfl
  | cons key keys ih =>
    rw [List.foldl_cons]
    have hstep : ensureStep p key = p := by
      unfold ensureStep
      simp [h key (by simp)]
    rw [hstep]
    exact ih (fun k hk => h k (by simp [hk]))

theorem ensureKeys_contains (p : List (String × Json)) (k : String)
    (h : k ∈ required_keys) : containsKey (ensureKeys p) k = true :=
  contains_foldl_ensure_mem required_keys p k h

theorem ensureKeys_lookup (p : List (String × Json)) (k : String)
    (h : containsKey p k = true) : lookupKey (ensureKeys p) k = lookupKey p k :=
  lookup_foldl_ensure required_keys p k h

theorem ensureKeys_id (p : List (String × Json))
    (h : ∀ k ∈ required_keys, containsKey p k = true) : ensureKeys p = p :=
  foldl_ensure_id required_keys p h

theorem deconcatStep_some_cases (p : List (String × Json)) (key : String)
    (q : List (String × Json)) (h : deconcatStep p key = some q) :
    q = p ∨ ∃ items, pyIterElems ((lookupKey p key).getD Json.null) = some items ∧
      q = insertKey p key (Json.arr (items.flatMap splitConcatenated)) := by
  unfold deconcatStep at h
  by_cases hc : (containsKey p key ∧ pyTruthy ((lookupKey p key).getD Json.null))
  · rw [if_pos hc] at h
    cases hit : pyIterElems ((lookupKey p key).getD Json.null) with
    | none => rw [hit] at h; cases h
    | some items =>
      rw [hit] at h
      right
      refine ⟨items, rfl, ?_⟩
      injection h with h
      exact h.symm
  · rw [if_neg hc] at h
    left
    injection h with h
    exact h.symm

theorem deconcatStep_isSome_of_ok (p : List (String × Json)) (key : String)
    (h : iterOkB (lookupKey p key) = true) : (deconcatStep p key).isSome = true := by
  unfold deconcatStep
  by_cases hc : (containsKey p key ∧ pyTruthy ((lookupKey p key).getD Json.null))
  · rw [if_pos hc]
    obtain ⟨hck, htr⟩ := hc
    rw [containsKey_eq_isSome] at hck
    cases hv : lookupKey p key with
    | none => rw [hv] at hck; simp at hck
    | some v =>
      rw [hv] at htr
      simp only [Option.getD_some] at htr
      have h2 : (!pyTruthy v || (pyIterElems v).isSome) = true := by
        rw [hv] at h
        simpa [iterOkB] using h
      rw [htr] at h2
      simp only [Bool.not_true, Bool.false_or] at h2
      simp only [Option.getD_some]
      cases hit : pyIterElems v with
      | none => rw [hit] at h2; simp at h2
      | some items => rfl
  · rw [if_neg hc]
    rfl

theorem iterOk_after_step (p : List (String × Json)) (key : String)
    (q : List (String × Json)) (k : String) (hstep : deconcatStep p key = some q)
    (hok : iterOkB (lookupKey p k) = true) : iterOkB (lookupKey q k) = true := by
  rcases deconcatStep_some_cases p key q hstep with he | ⟨items, hit, he⟩
  · rw [he]; exact hok
  · subst he
    by_cases hk : key = k
    · subst hk
      rw [lookupKey_insertKey_self]
      simp [iterOkB, pyIterElems]
    · rw [lookupKey_insertKey_ne p key k _ hk]
      exact hok

theorem foldlM_deconcat_isSome (keys : List String) (p : List (String × Json))
    (h : ∀ k ∈ keys, iterOkB (lookupKey p k) = true) :
    (keys.foldlM deconcatStep p).isSome = true := by
  induction keys generalizing p with
  | nil => rfl
  | cons key keys ih =>
    rw [List.foldlM_cons]
    have hs := deconcatStep_isSome_of_ok p key (h key (by simp))
    cases hstep : deconcatStep p key with
    | none => rw [hstep] at hs; exact absurd hs (by simp)
    | some q =>
      exact ih q (fun k hk =>
        iterOk_after_step p key q k hstep (h k (by simp [hk])))

theorem foldlM_deconcat_lookup_of_not_mem (keys : List String)
    (p q : List (String × Json)) (k : String) (h : k ∉ keys)
    (hf : keys.foldlM deconcatStep p = some q) : lookupKey q k = lookupKey p k := by
  induction keys generalizing p with
  | nil =>
    have hq : p = q := by
      have : some p = some q := hf
      injection this
    rw [← hq]
  | cons key keys ih =>
    rw [List.foldlM_cons] at hf
    cases hstep : deconcatStep p key with
    | none =>
      rw [hstep] at hf
      exact absurd hf (by simp)
    | some p1 =>
      rw [hstep] at hf
      have hf1 : keys.foldlM deconcatStep p1 = some q := hf
      have hk : k ∉ keys := fun hm => h (by simp [hm])
      rw [ih p1 hk hf1]
      rcases deconcatStep_some_cases p key p1 hstep with he | ⟨items, hit, he⟩
      · rw [he]
      · subst he
        have hkk : ¬ key = k := fun he => h (by simp [he])
        exact lookupKey_insertKey_ne p key k _ hkk

theorem foldlM_deconcat_contains (keys : List String) (p q : List (String × Json))
    (k : String) (h : containsKey p k = true)
    (hf : keys.foldlM deconcatStep p = some q) : containsKey q k = true := by
  induction keys generalizing p with
  | nil =>
    have hq : p = q := by
      have : some p = some q := hf
      injection this
    rw [← hq]
    exact h
  | cons key keys ih =>
    rw [List.foldlM_cons] at hf
    cases hstep : deconcatStep p key with
    | none =>
      rw [hstep] at hf
      exact absurd hf (by simp)
    | some p1 =>
      rw [hstep] at hf
      have hf1 : keys.foldlM deconcatStep p1 = some q := hf
      refine ih p1 ?_ hf1
      rcases deconcatStep_some_cases p key p1 hstep with he | ⟨items, hit, he⟩
      · rw [he]; exact h
      · subst he
        exact containsKey_insertKey_of p key k _ h

theorem foldlM_deconcat_lookup_mem (keys : List String) (p : List (String × Json))
    (k : String) (v : Json) (items : List Json) (hnd : keys.Nodup) (hk : k ∈ keys)
    (hval : lookupKey p k = some v) (htr : pyTruthy v = true)
    (hit : pyIterElems v = some items)
    (hsafe : ∀ k' ∈ keys, iterOkB (lookupKey p k') = true) :
    ∃ q, keys.foldlM deconcatStep p = some q ∧
      lookupKey q k = some (Json.arr (items.flatMap splitConcatenated)) := by
  induction keys generalizing p with
  | nil => simp at hk
  | cons key keys ih =>
    rw [List.foldlM_cons]
    rcases List.mem_cons.mp hk with he | hm
    · subst he
      have hcond : (containsKey p k ∧ pyTruthy ((lookupKey p k).getD Json.null)) := by
        constructor
        · rw [containsKey_eq_isSome, hval]; rfl
        · rw [hval]; simpa using htr
      have hstep : deconcatStep p k =
          some (insertKey p k (Json.arr (items.flatMap splitConcatenated))) := by
        unfold deconcatStep
        rw [if_pos hcond, hval]
        simp only [Option.getD_some]
        rw [hit]
      rw [hstep]
      have hknotin : k ∉ keys := (List.nodup_cons.mp hnd).1
      have hsafe1 : ∀ k' ∈ keys,
          iterOkB (lookupKey (insertKey p k (Json.arr (items.flatMap splitConcatenated))) k')
            = true := fun k' hk' =>
        iterOk_after_step p k _ k' hstep (hsafe k' (by simp [hk']))
      have hiss := foldlM_deconcat_isSome keys _ hsafe1
      cases hfq : keys.foldlM deconcatStep
          (insertKey p k (Json.arr (items.flatMap splitConcatenated))) with
      | none => rw [hfq] at hiss; exact absurd hiss (by simp)
      | some q =>
        refine ⟨q, hfq, ?_⟩
        rw [foldlM_deconcat_lookup_of_not_mem keys _ q k hknotin hfq]
        exact lookupKey_insertKey_self p k _
    · have hs := deconcatStep_isSome_of_ok p key (hsafe key (by simp))
      cases hstep : deconcatStep p key with
      | none => rw [hstep] at hs; exact absurd hs (by simp)
      | some p1 =>
        have hknd : keys.Nodup := (List.nodup_cons.mp hnd).2
        have hkeyk : ¬ key = k := by
          intro he
          subst he
          exact (List.nodup_cons.mp hnd).1 hm
        have hval1 : lookupKey p1 k = some v := by
          rcases deconcatStep_some_cases p key p1 hstep with he | ⟨its, hit1, he⟩
          · rw [he]; exact hval
          · subst he
            rw [lookupKey_insertKey_ne p key k _ hkeyk]
            exact hval
        obtain ⟨q, hq1, hq2⟩ := ih p1 hknd hm hval1
          (fun k' hk' => iterOk_after_step p key p1 k' hstep (hsafe k' (by simp [hk'])))
        exact ⟨q, hq1, hq2⟩

theorem flatMap_id_of_singleton (items : List Json)
    (h : ∀ e ∈ items, splitConcatenated e = [e]) :
    items.flatMap splitConcatenated = items := by
  induction items with
  | nil => rfl
  | cons e t ih =>
    rw [List.flatMap_cons, h e (by simp)]
    rw [ih (fun e he => h e (by simp [he]))]
    rfl

theorem foldlM_deconcat_id (keys : List String) (p : List (String × Json))
    (h : ∀ k ∈ keys, roundTripOkField (lookupKey p k) = true) :
    keys.foldlM deconcatStep p = some p := by
  induction keys with
  | nil => rfl
  | cons key keys ih =>
    rw [List.foldlM_cons]
    have hfield := h key (by simp)
    have hstep : deconcatStep p key = some p := by
      cases hv : lookupKey p key with
      | none => rw [hv] at hfield; simp [roundTripOkField] at hfield
      | some v =>
        rw [hv] at hfield
        cases v with
        | arr items =>
          have hall : items.all (fun e =>
              match e with
              | Json.str t => countDelim t.toList ≤ 2 && pyStripL t.toList = t.toList
              | _ => false) = true := hfield
          by_cases hemp : items = []
          · subst hemp
            unfold deconcatStep
            rw [if_neg]
            intro hcond
            rw [hv] at hcond
            simpa [pyTruthy] using hcond.2
          · have hcond : (containsKey p key ∧
                pyTruthy ((lookupKey p key).getD Json.null)) := by
              constructor
              · rw [containsKey_eq_isSome, hv]; rfl
              · rw [hv]
                simpa [pyTruthy, List.isEmpty_iff] using hemp
            unfold deconcatStep
            rw [if_pos hcond, hv]
            simp only [Option.getD_some, pyIterElems]
            have hfm : items.flatMap splitConcatenated = items := by
              refine flatMap_id_of_singleton items (fun e he => ?_)
              have hok := List.all_eq_true.mp hall e he
              cases e with
              | str t =>
                simp only [Bool.and_eq_true, decide_eq_true_eq] at hok
                have hle := hok.1
                simp only [splitConcatenated]
                rw [if_neg (by omega)]
                rw [hok.2, mk_toList]
              | null => exact absurd hok (by simp)
              | bool b => exact absurd hok (by simp)
              | num n => exact absurd hok (by simp)
              | arr l => exact absurd hok (by simp)
              | obj kv => exact absurd hok (by simp)
            rw [hfm]
            rw [insertKey_self_of_lookup p key (Json.arr items) hv]
        | null => exact absurd hfield (by simp [roundTripOkField])
        | bool b => exact absurd hfield (by simp [roundTripOkField])
        | num n => exact absurd hfield (by simp [roundTripOkField])
        | str s => exact absurd hfield (by simp [roundTripOkField])
        | obj kv => exact absurd hfield (by simp [roundTripOkField])
    rw [hstep]
    exact ih (fun k hk => h k (by simp [hk]))

theorem splitLines_ne_nil (cs : List Char) : splitLines cs ≠ [] := by
  cases cs with
  | nil => simp [splitLines]
  | cons c rest =>
    unfold splitLines
    cases splitLines rest with
    | nil => simp
    | cons l ls =>
      by_cases hc : c = '\n'
      · simp [hc]
      · simp [hc]

theorem splitLines_head_takeWhile (cs : List Char) :
    (splitLines cs).headD [] = cs.takeWhile (fun c => ¬ c = '\n') := by
  induction cs with
  | nil => rfl
  | cons c rest ih =>
    unfold splitLines
    cases hr : splitLines rest with
    | nil => exact absurd hr (splitLines_ne_nil rest)
    | cons l ls =>
      rw [hr] at ih
      simp only [List.headD_cons] at ih
      by_cases hc : c = '\n'
      · simp [hc]
      · simp [hc, ih]

theorem takeWhile_all_append (p : Char → Bool) (l1 l2 : List Char)
    (h : ∀ a ∈ l1, p a = true) :
    (l1 ++ l2).takeWhile p = l1 ++ l2.takeWhile p := by
  induction l1 with
  | nil => simp
  | cons a t ih =>
    rw [List.cons_append, List.takeWhile_cons, h a (by simp)]
    simp only [if_true, List.cons_append]
    rw [ih (fun a ha => h a (by simp [ha]))]

theorem fence_prefix_takeWhile (cs : List Char) (h : fenceL.isPrefixOf cs = true) :
    fenceL.isPrefixOf (cs.takeWhile (fun c => ¬ c = '\n')) = true := by
  have hpre : fenceL <+: cs := List.isPrefixOf_iff_prefix.mp h
  obtain ⟨t, ht⟩ := hpre
  subst ht
  rw [takeWhile_all_append _ _ _ (by intro a ha; fin_cases ha <;> decide)]
  exact List.isPrefixOf_iff_prefix.mpr ⟨_, rfl⟩


theorem splitLines_getLast_ne_nil (cs : List Char) (hne : cs ≠ [])
    (hc : ∀ c, cs.getLast? = some c → ¬ c = '\n') :
    (splitLines cs).getLastD [] ≠ [] := by
  induction cs with
  | nil => exact absurd rfl hne
  | cons a rest ih =>
    by_cases hrne : rest = []
    · subst hrne
      have ha : ¬ a = '\n' := hc a (by simp)
      simp [splitLines, ha]
    · have hlast : ∀ c, rest.getLast? = some c → ¬ c = '\n' := by
        intro c hcl
        refine hc c ?_
        cases hrr : rest with
        | nil => exact absurd hrr hrne
        | cons b t =>
          rw [hrr] at hcl
          rw [List.getLast?_cons_cons]
          exact hcl
      have ihr := ih hrne hlast
      cases hsp : splitLines rest with
      | nil => exact absurd hsp (splitLines_ne_nil rest)
      | cons l ls =>
        rw [hsp] at ihr
        simp only [splitLines, hsp]
        by_cases ha : a = '\n'
        · rw [if_pos ha, List.getLastD_cons]
          exact ihr
        · rw [if_neg ha, List.getLastD_cons]
          rw [List.getLastD_cons] at ihr
          cases ls with
          | nil => simp
          | cons l2 ls2 =>
            rw [List.getLastD_eq_getLast?] at ihr ⊢
            cases hgl : (l2 :: ls2).getLast? with
            | none => simp [List.getLast?_eq_none_iff] at hgl
            | some x =>
              rw [hgl] at ihr
              simpa using ihr

theorem lastNonEmptyLine_of_getLast (lines : List (List Char)) (hne : lines ≠ [])
    (h : lines.getLastD [] ≠ []) : lastNonEmptyLine lines = lines.getLastD [] := by
  have hsome : lines.getLast?.isSome = true := List.getLast?_isSome.mpr hne
  cases hgl : lines.getLast? with
  | none => rw [hgl] at hsome; simp at hsome
  | some x =>
    have hx : lines.getLastD [] = x := by
      rw [List.getLastD_eq_getLast?, hgl]; rfl
    rw [hx] at h ⊢
    rw [← List.head?_reverse] at hgl
    cases hr : lines.reverse with
    | nil => rw [hr] at hgl; simp at hgl
    | cons y t =>
      rw [hr] at hgl
      have hyx : y = x := by simpa using hgl
      subst hyx
      unfold lastNonEmptyLine
      rw [hr]
      rw [List.find?_cons_of_pos _ (by simpa using h)]
      rfl

theorem stripCodeFence_id_of_no_marker (s : String) (h : hasFenceMarker s = false) :
    stripCodeFence s = s := by
  have hnp : ¬ (fenceL.isPrefixOf s.toList = true) := by
    intro hpre
    have hinf := (List.isPrefixOf_iff_prefix.mp hpre).isInfix
    unfold hasFenceMarker at h
    rw [decide_eq_false_iff_not] at h
    exact h hinf
  unfold stripCodeFence
  rw [if_neg hnp]

theorem stripCodeFence_eq_spec (s : String) (htrim : pyStrip s = s)
    (hpref : fenceL.isPrefixOf s.toList = true) :
    stripCodeFence s = specStripFence s := by
  unfold stripCodeFence specStripFence
  rw [if_pos hpref]
  have hopen : dropOpeningFence (splitLines s.toList) = (splitLines s.toList).drop 1 := by
    unfold dropOpeningFence
    rw [if_pos]
    rw [splitLines_head_takeWhile]
    exact fence_prefix_takeWhile s.toList hpref
  rw [hopen]
  cases hL1 : (splitLines s.toList).drop 1 with
  | nil => rfl
  | cons L rest =>
    have hne : s.toList ≠ [] := by
      intro h0
      rw [h0] at hpref
      simp [fenceL, List.isPrefixOf] at hpref
    have hstrip : pyStripL s.toList = s.toList := congrArg String.toList htrim
    have hlastc : ∀ c, s.toList.getLast? = some c → ¬ c = '\n' := by
      intro c hcl
      have hws := (pyStripL_head_last s.toList hstrip).2 c hcl
      intro he
      rw [he] at hws
      simp [isPyWs] at hws
    have hlne : (splitLines s.toList).getLastD [] ≠ [] :=
      splitLines_getLast_ne_nil s.toList hne hlastc
    cases hsl : splitLines s.toList with
    | nil => exact absurd hsl (splitLines_ne_nil s.toList)
    | cons L0 rest0 =>
      rw [hsl] at hL1
      simp only [List.drop_one, List.tail_cons] at hL1
      rw [hsl] at hlne
      rw [List.getLastD_cons] at hlne
      rw [hL1] at hlne
      have hlast1 : (L :: rest).getLastD [] ≠ [] := by
        rw [List.getLastD_eq_getLast?] at hlne ⊢
        cases hgl : (L :: rest).getLast? with
        | none => simp [List.getLast?_eq_none_iff] at hgl
        | some x =>
          rw [hgl] at hlne
          simpa using hlne
      have hspec := lastNonEmptyLine_of_getLast (L :: rest) (by simp) hlast1
      unfold dropClosingFence specDropClosing
      rw [hspec]
      by_cases hp : fenceL.isPrefixOf ((L :: rest).getLastD []) = true
      · rw [if_pos ⟨by simp, hp⟩, if_pos hp]
      · rw [if_neg (fun hand => hp hand.2), if_neg hp]

theorem splitConcatenated_eq_spec (item : Json) :
    splitConcatenated item = specSplitElem item := by
  cases item with
  | str s =>
    simp only [splitConcatenated, specSplitElem]
    by_cases h : 2 < countDelim s.toList
    · rw [if_pos ⟨by omega, h⟩, if_pos h]
    · rw [if_neg (fun hand => h hand.2), if_neg h]
  | null => rfl
  | bool b => rfl
  | num n => rfl
  | arr l => rfl
  | obj kv => rfl

/-- C1 (amended): the normalizer is total on every input whose located JSON
object does not bind a multi-item list field to a truthy non-iterable value;
on such inputs it always returns a record (parse failures are absorbed by the
fallback). -/
theorem C1_normalize_total_amended (rt : String) (h : safeInput rt = true) :
    (extract_json_from_response rt).isSome = true := by
  unfold safeInput at h
  unfold extract_json_from_response
  split at h
  next span hm =>
    split at h
    next parsed heq =>
      have hiss := foldlM_deconcat_isSome split_keys (ensureKeys parsed)
        (fun k hk => by simpa using List.all_eq_true.mp h k hk)
      cases hq : split_keys.foldlM deconcatStep (ensureKeys parsed) with
      | none => rw [hq] at hiss; exact absurd hiss (by simp)
      | some q => rfl
    next hnon heq => exact absurd h (by simp)
    next heq => rfl
  next hm => rfl

/-- C1 witness: a concrete safe input on which the normalizer returns a
record. -/
theorem C1_normalize_total_witness :
    (extract_json_from_response "\x7b\x7d").isSome = true :=
  C1_normalize_total_amended "\x7b\x7d" (by decide)

/-- C1 counterexample: on `{"key_decisions": 5}` the de-concatenation loop
iterates the truthy integer `5` and the `TypeError` escapes `except
json.JSONDecodeError`, so the normalizer raises instead of returning a
record. -/
theorem C1_normalize_total_counterexample :
    extract_json_from_response "\x7b\"key_decisions\": 5\x7d" = none := by
  rfl

/-- C2 (amended): whenever the normalizer returns a record, that record is an
object containing all five required fields; absent fields were filled with
defaults, but a field explicitly bound to `null` stays `null`. -/
theorem C2_fields_present_amended (rt : String) (j : Json)
    (h : extract_json_from_response rt = some j) :
    ∃ kvs, j = Json.obj kvs ∧ ∀ k ∈ required_keys, containsKey kvs k = true := by
  unfold extract_json_from_response at h
  split at h
  next span hm =>
    split at h
    next parsed heq =>
      cases hq : split_keys.foldlM deconcatStep (ensureKeys parsed) with
      | none => rw [hq] at h; simp at h
      | some q =>
        rw [hq] at h
        have h2 : some (Json.obj q) = some j := h
        injection h2 with h2
        refine ⟨q, h2.symm, fun k hk => ?_⟩
        exact foldlM_deconcat_contains split_keys (ensureKeys parsed) q k
          (ensureKeys_contains parsed k hk) hq
    next hnon heq => cases h
    next heq =>
      injection h with h
      refine ⟨_, h.symm, ?_⟩
      intro k hk
      simp [required_keys] at hk
      rcases hk with rfl | rfl | rfl | rfl | rfl <;> rfl
  next hm =>
    injection h with h
    refine ⟨_, h.symm, ?_⟩
    intro k hk
    simp [required_keys] at hk
    rcases hk with rfl | rfl | rfl | rfl | rfl <;> rfl

/-- C2 witness: on a concrete unparsable input the returned record is an
object carrying all five required fields. -/
theorem C2_fields_present_witness :
    ∃ kvs, fallbackJson "nope" = Json.obj kvs ∧
      ∀ k ∈ required_keys, containsKey kvs k = true :=
  C2_fields_present_amended "nope" (fallbackJson "nope") rfl

/-- C2 counterexample: a field explicitly bound to `null` in the model
output is returned as `null` — the record is never missing the field, but
the claim's "never null" fails. -/
theorem C2_fields_present_counterexample :
    extract_json_from_response "\x7b\"meeting_summary\": null\x7d" =
      some (Json.obj [("meeting_summary", Json.null), ("participants", Json.arr []),
        ("key_decisions", Json.arr []), ("action_items", Json.arr []),
        ("discussion_points", Json.arr [])]) ∧
    lookupKey [("meeting_summary", Json.null), ("participants", Json.arr []),
        ("key_decisions", Json.arr []), ("action_items", Json.arr []),
        ("discussion_points", Json.arr [])] "meeting_summary" = some Json.null :=
  ⟨rfl, rfl⟩

/-- C5: whenever no brace span is located or the located span fails to
parse, the normalizer returns exactly the fallback record, with the
discussion-points entry quoting the first 300 characters of the raw input
followed by an ellipsis. -/
theorem C5_hard_fallback (rt : String) (h : hardFallbackTriggered rt = true) :
    extract_json_from_response rt = some (Json.obj
      [("key_decisions",
          Json.arr [Json.str "Unable to parse LLM response - JSON format error"]),
        ("action_items",
          Json.arr [Json.str "Try analyzing again or use a different model"]),
        ("discussion_points",
          Json.arr [Json.str ("Raw response: "
            ++ String.mk (rt.toList.take 300) ++ "...")]),
        ("participants", Json.arr []),
        ("meeting_summary",
          Json.str "Error: Could not parse the LLM response into structured format")]) := by
  unfold hardFallbackTriggered at h
  unfold extract_json_from_response
  split at h
  next span hm =>
    cases hl : loads span with
    | none => rfl
    | some j => rw [hl] at h; simp at h
  next hm => rfl

/-- C5 witness: the input `"not json at all"` yields exactly the fallback
record. -/
theorem C5_hard_fallback_witness :
    extract_json_from_response "not json at all" = some (Json.obj
      [("key_decisions",
          Json.arr [Json.str "Unable to parse LLM response - JSON format error"]),
        ("action_items",
          Json.arr [Json.str "Try analyzing again or use a different model"]),
        ("discussion_points",
          Json.arr [Json.str ("Raw response: "
            ++ String.mk ("not json at all".toList.take 300) ++ "...")]),
        ("participants", Json.arr []),
        ("meeting_summary",
          Json.str "Error: Could not parse the LLM response into structured format")]) :=
  C5_hard_fallback "not json at all" (by decide)

/-- C7: the wrapper-stripping step is a no-op on text with no fence marker;
on trimmed text that begins with a fence marker it removes the first line
and, when the last non-empty line is a closing marker, removes it too
(exactly the spec's step 1). -/
theorem C7_wrapper_stripping (s : String) :
    (hasFenceMarker s = false → stripCodeFence s = s) ∧
    (pyStrip s = s → fenceL.isPrefixOf s.toList = true →
      stripCodeFence s = specStripFence s) :=
  ⟨stripCodeFence_id_of_no_marker s, stripCodeFence_eq_spec s⟩

/-- C7 witness: concrete instances of both conjuncts. -/
theorem C7_wrapper_stripping_witness :
    stripCodeFence "hello" = "hello" ∧
    stripCodeFence "```json\nX\n```" = specStripFence "```json\nX\n```" :=
  ⟨(C7_wrapper_stripping "hello").1 (by decide),
    (C7_wrapper_stripping "```json\nX\n```").2 (by decide) (by decide)⟩

/-- C8: a transcript that strips to the empty string is rejected with
HTTP 400 `{error: "Empty transcript"}` before any prompt is built or LLM
call made. -/
theorem C8_empty_transcript_rejected (t : String) (h : pyStrip t = "") :
    analyze_meeting_pre t = PreLLM.reject 400 "Empty transcript" := by
  unfold analyze_meeting_pre
  rw [if_pos h]

/-- C8 witness: the whitespace-only transcript `"   "` is rejected. -/
theorem C8_empty_transcript_rejected_witness :
    analyze_meeting_pre "   " = PreLLM.reject 400 "Empty transcript" :=
  C8_empty_transcript_rejected "   " (by decide)

theorem parsedObjOf_eq (rt : String) (sp : String) (parsed : List (String × Json))
    (hm : jsonMatch (cleanedText rt) = some sp)
    (hl : loads sp = some (Json.obj parsed)) : parsedObjOf rt = some parsed := by
  unfold parsedObjOf
  split
  next span hm2 =>
    have hsp : sp = span := by
      rw [hm] at hm2
      injection hm2
    subst hsp
    rw [hl]
  next hm2 => rw [hm2] at hm; simp at hm

theorem extract_parse_nonobj (rt : String) (sp : String) (j : Json)
    (hm : jsonMatch (cleanedText rt) = some sp) (hl : loads sp = some j)
    (hno : ∀ kvs, ¬ j = Json.obj kvs) :
    extract_json_from_response rt = none := by
  unfold extract_json_from_response
  split
  next span hm2 =>
    have hsp : sp = span := by
      rw [hm] at hm2
      injection hm2
    subst hsp
    split
    next parsed heq =>
      rw [hl] at heq
      injection heq with heq
      exact absurd heq (hno parsed)
    next x heq => rfl
    next heq => rw [hl] at heq; cases heq
  next hm2 => rw [hm2] at hm; simp at hm

/-- C3 (amended): the located span runs from the first `{` through the last
`}` of the cleaned text — the longest brace-delimited span, not the
structurally matching brace.  Hence commentary around a parseable object is
discarded, and the normalizer behaves exactly as if given the object alone,
provided the leading commentary contains no `{`, the trailing commentary
contains no `}`, and the whole text is trimmed with no leading fence
marker. -/
theorem C3_brace_span_amended (pre obj post : String)
    (hpre : ∀ c ∈ pre.toList, ¬ c = openBrace)
    (hpost : ∀ c ∈ post.toList, ¬ c = closeBrace)
    (h1 : obj.toList.head? = some openBrace)
    (h2 : obj.toList.getLast? = some closeBrace)
    (htrim : pyStrip (pre ++ obj ++ post) = pre ++ obj ++ post)
    (hfence : fenceL.isPrefixOf (pre ++ obj ++ post).toList = false)
    (hparse : (loads obj).isSome = true) :
    extract_json_from_response (pre ++ obj ++ post) =
      extract_json_from_response obj := by
  have hclean1 : cleanedText (pre ++ obj ++ post) = pre ++ obj ++ post := by
    unfold cleanedText
    rw [htrim]
    unfold stripCodeFence
    rw [hfence]
    simp
  have hstrip2 : pyStrip obj = obj := by
    unfold pyStrip
    rw [pyStripL_eq_self_of obj.toList
      (fun c hc => by
        rw [h1] at hc
        have : openBrace = c := by injection hc
        rw [← this]
        decide)
      (fun c hc => by
        rw [h2] at hc
        have : closeBrace = c := by injection hc
        rw [← this]
        decide)]
    exact mk_toList obj
  have hclean2 : cleanedText obj = obj := by
    unfold cleanedText
    rw [hstrip2]
    exact stripCodeFence_id_of_head obj openBrace h1 (by decide)
  have hm1 : jsonMatch (pre ++ obj ++ post) = some obj := by
    unfold jsonMatch
    have hsplit3 : (pre ++ obj ++ post).toList =
        pre.toList ++ obj.toList ++ post.toList := by
      rw [toList_append, toList_append]
    rw [hsplit3]
    rw [jsonMatchL_concat pre.toList obj.toList post.toList hpre hpost h1 h2]
    simp [mk_toList]
  have hm2 : jsonMatch obj = some obj := jsonMatch_whole obj h1 h2
  cases hl : loads obj with
  | none => rw [hl] at hparse; exact absurd hparse (by simp)
  | some j =>
    cases j with
    | obj kvs =>
      have e1 := extract_eq_of_parsedObj (pre ++ obj ++ post) kvs
        (parsedObjOf_eq (pre ++ obj ++ post) obj kvs (by rw [hclean1]; exact hm1) hl)
      have e2 := extract_eq_of_parsedObj obj kvs
        (parsedObjOf_eq obj obj kvs (by rw [hclean2]; exact hm2) hl)
      rw [e1, e2]
    | null =>
      rw [extract_parse_nonobj (pre ++ obj ++ post) obj Json.null
          (by rw [hclean1]; exact hm1) hl (fun kvs h => by cases h),
        extract_parse_nonobj obj obj Json.null
          (by rw [hclean2]; exact hm2) hl (fun kvs h => by cases h)]
    | bool b =>
      rw [extract_parse_nonobj (pre ++ obj ++ post) obj (Json.bool b)
          (by rw [hclean1]; exact hm1) hl (fun kvs h => by cases h),
        extract_parse_nonobj obj obj (Json.bool b)
          (by rw [hclean2]; exact hm2) hl (fun kvs h => by cases h)]
    | num n =>
      rw [extract_parse_nonobj (pre ++ obj ++ post) obj (Json.num n)
          (by rw [hclean1]; exact hm1) hl (fun kvs h => by cases h),
        extract_parse_nonobj obj obj (Json.num n)
          (by rw [hclean2]; exact hm2) hl (fun kvs h => by cases h)]
    | str s =>
      rw [extract_parse_nonobj (pre ++ obj ++ post) obj (Json.str s)
          (by rw [hclean1]; exact hm1) hl (fun kvs h => by cases h),
        extract_parse_nonobj obj obj (Json.str s)
          (by rw [hclean2]; exact hm2) hl (fun kvs h => by cases h)]
    | arr l =>
      rw [extract_parse_nonobj (pre ++ obj ++ post) obj (Json.arr l)
          (by rw [hclean1]; exact hm1) hl (fun kvs h => by cases h),
        extract_parse_nonobj obj obj (Json.arr l)
          (by rw [hclean2]; exact hm2) hl (fun kvs h => by cases h)]

/-- The value of one field of the normalizer's result, when the normalizer
returns a record. -/
def resultField (rt : String) (key : String) : Option Json :=
  match extract_json_from_response rt with
  | some (Json.obj kvs) => lookupKey kvs key
  | _ => none

theorem charElems_flatMap (s : String) :
    ((s.toList.map (fun c => Json.str (String.mk [c]))).flatMap splitConcatenated)
      = specCharSplit s := by
  unfold specCharSplit
  have hkey : ∀ l : List Char,
      ((l.map (fun c => Json.str (String.mk [c]))).flatMap splitConcatenated)
        = l.map (fun c => Json.str (pyStrip (String.mk [c]))) := by
    intro l
    induction l with
    | nil => rfl
    | cons c t ih =>
      simp only [List.map_cons, List.flatMap_cons, ih]
      have hone : splitConcatenated (Json.str (String.mk [c]))
          = [Json.str (String.mk (pyStripL [c]))] := by
        have h0 : countDelim ((String.mk [c]).toList) = 0 := rfl
        simp only [splitConcatenated]
        rw [if_neg (by omega)]
        rfl
      rw [hone]
      rfl
  exact hkey s.toList

/-- C3 witness: commentary with brace-free text around a parseable object is
discarded; the result equals the result on the bare object. -/
theorem C3_brace_span_witness :
    extract_json_from_response ("note: " ++ "\x7b\"a\": 1\x7d" ++ " (end)") =
      extract_json_from_response "\x7b\"a\": 1\x7d" :=
  C3_brace_span_amended "note: " "\x7b\"a\": 1\x7d" " (end)"
    (by decide) (by decide) (by decide) (by decide) (by decide) (by decide)
    (by decide)

/-- C3 counterexample: with a stray `}` in the trailing commentary the greedy
span `{"a": 1} y}` fails to parse, so the normalizer falls back instead of
parsing the structurally matched object span as the claim states. -/
theorem C3_brace_span_counterexample :
    extract_json_from_response "x \x7b\"a\": 1\x7d y\x7d" =
      some (fallbackJson "x \x7b\"a\": 1\x7d y\x7d") ∧
    extract_json_from_response "\x7b\"a\": 1\x7d" = some (Json.obj
      [("a", Json.num 1), ("meeting_summary", Json.str "No summary available"),
        ("participants", Json.arr []), ("key_decisions", Json.arr []),
        ("action_items", Json.arr []), ("discussion_points", Json.arr [])]) ∧
    fallbackJson "x \x7b\"a\": 1\x7d y\x7d" ≠ Json.obj
      [("a", Json.num 1), ("meeting_summary", Json.str "No summary available"),
        ("participants", Json.arr []), ("key_decisions", Json.arr []),
        ("action_items", Json.arr []), ("discussion_points", Json.arr [])] :=
  ⟨rfl, rfl, by simp [fallbackJson]⟩

/-- C9: when the parsed object carries `participants` and `meeting_summary`
and the normalizer returns a record, both values are passed through
completely unchanged, whatever their JSON type (null included). -/
theorem C9_frame_fields (rt : String) (kvs : List (String × Json)) (v w : Json)
    (hobj : parsedObjOf rt = some kvs)
    (hp : lookupKey kvs "participants" = some v)
    (hs : lookupKey kvs "meeting_summary" = some w)
    (hres : (extract_json_from_response rt).isSome = true) :
    resultField rt "participants" = some v ∧
      resultField rt "meeting_summary" = some w := by
  have he := extract_eq_of_parsedObj rt kvs hobj
  cases hq : split_keys.foldlM deconcatStep (ensureKeys kvs) with
  | none => rw [he, hq] at hres; exact absurd hres (by simp)
  | some q =>
    have hex : extract_json_from_response rt = some (Json.obj q) := by
      rw [he, hq]; rfl
    have hrf : ∀ k, resultField rt k = lookupKey q k := by
      intro k
      unfold resultField
      rw [hex]
    constructor
    · rw [hrf,
        foldlM_deconcat_lookup_of_not_mem split_keys (ensureKeys kvs) q
          "participants" (by decide) hq,
        ensureKeys_lookup kvs "participants"
          (by rw [containsKey_eq_isSome, hp]; rfl)]
      exact hp
    · rw [hrf,
        foldlM_deconcat_lookup_of_not_mem split_keys (ensureKeys kvs) q
          "meeting_summary" (by decide) hq,
        ensureKeys_lookup kvs "meeting_summary"
          (by rw [containsKey_eq_isSome, hs]; rfl)]
      exact hs

/-- C9 witness: a null `participants` and an integer `meeting_summary` are
passed through untouched. -/
theorem C9_frame_fields_witness :
    resultField "\x7b\"participants\": null, \"meeting_summary\": 7\x7d"
      "participants" = some Json.null ∧
    resultField "\x7b\"participants\": null, \"meeting_summary\": 7\x7d"
      "meeting_summary" = some (Json.num 7) :=
  C9_frame_fields "\x7b\"participants\": null, \"meeting_summary\": 7\x7d"
    [("participants", Json.null), ("meeting_summary", Json.num 7)]
    Json.null (Json.num 7) rfl rfl rfl (by decide)

/-- C10: a non-empty string sitting where a multi-item list is expected is
iterated character by character, yielding one-character strings (each
trimmed, so whitespace characters become empty strings). -/
theorem C10_string_field_chars (rt : String) (kvs : List (String × Json))
    (key : String) (s : String) (hobj : parsedObjOf rt = some kvs)
    (hkey : key ∈ split_keys)
    (hval : lookupKey kvs key = some (Json.str s)) (hne : ¬ s = "")
    (hsafe : ∀ k ∈ split_keys, iterOkB (lookupKey (ensureKeys kvs) k) = true) :
    resultField rt key = some (Json.arr (specCharSplit s)) := by
  have hval1 : lookupKey (ensureKeys kvs) key = some (Json.str s) := by
    rw [ensureKeys_lookup kvs key (by rw [containsKey_eq_isSome, hval]; rfl)]
    exact hval
  have htr : pyTruthy (Json.str s) = true := by
    simpa [pyTruthy] using hne
  obtain ⟨q, hq1, hq2⟩ := foldlM_deconcat_lookup_mem split_keys (ensureKeys kvs)
    key (Json.str s) (s.toList.map (fun c => Json.str (String.mk [c])))
    (by decide) hkey hval1 htr rfl hsafe
  have he := extract_eq_of_parsedObj rt kvs hobj
  have hex : extract_json_from_response rt = some (Json.obj q) := by
    rw [he, hq1]; rfl
  have hrf : resultField rt key = lookupKey q key := by
    unfold resultField
    rw [hex]
  rw [hrf, hq2, charElems_flatMap]

/-- C10 witness: a `key_decisions` value `"AB"` comes out as `["A", "B"]`. -/
theorem C10_string_field_chars_witness :
    resultField "\x7b\"meeting_summary\":\"s\",\"participants\":[],\"key_decisions\":\"AB\",\"action_items\":[],\"discussion_points\":[]\x7d"
      "key_decisions" = some (Json.arr (specCharSplit "AB")) :=
  C10_string_field_chars
    "\x7b\"meeting_summary\":\"s\",\"participants\":[],\"key_decisions\":\"AB\",\"action_items\":[],\"discussion_points\":[]\x7d"
    [("meeting_summary", Json.str "s"), ("participants", Json.arr []),
      ("key_decisions", Json.str "AB"), ("action_items", Json.arr []),
      ("discussion_points", Json.arr [])]
    "key_decisions" "AB" rfl (by decide) rfl (by decide) (by decide)

/-- C4 (amended): string elements of a multi-item list field carrying more
than two ` - ` delimiters are split, trimmed, emptied-filtered and spliced in
order; string elements with at most two delimiters are kept as single
trimmed elements; non-string elements are coerced with `str()` and kept
whole — they are never split or trimmed, even when their string
representation carries more than two delimiters. -/
theorem C4_deconcat_amended (rt : String) (kvs : List (String × Json))
    (key : String) (items : List Json) (hobj : parsedObjOf rt = some kvs)
    (hkey : key ∈ split_keys)
    (hval : lookupKey kvs key = some (Json.arr items)) (hne : ¬ items = [])
    (hsafe : ∀ k ∈ split_keys, iterOkB (lookupKey (ensureKeys kvs) k) = true) :
    resultField rt key = some (Json.arr (items.flatMap specSplitElem)) := by
  have hval1 : lookupKey (ensureKeys kvs) key = some (Json.arr items) := by
    rw [ensureKeys_lookup kvs key (by rw [containsKey_eq_isSome, hval]; rfl)]
    exact hval
  have htr : pyTruthy (Json.arr items) = true := by
    simp only [pyTruthy]
    simpa [List.isEmpty_iff] using hne
  obtain ⟨q, hq1, hq2⟩ := foldlM_deconcat_lookup_mem split_keys (ensureKeys kvs)
    key (Json.arr items) items (by decide) hkey hval1 htr rfl hsafe
  have he := extract_eq_of_parsedObj rt kvs hobj
  have hex : extract_json_from_response rt = some (Json.obj q) := by
    rw [he, hq1]; rfl
  have hrf : resultField rt key = lookupKey q key := by
    unfold resultField
    rw [hex]
  have hfeq : splitConcatenated = specSplitElem := funext splitConcatenated_eq_spec
  rw [hrf, hq2, hfeq]

/-- C4 witness: `"A - B - C - D"` splits into four items while `"A - B"`
stays whole. -/
theorem C4_deconcat_amended_witness :
    resultField "\x7b\"meeting_summary\":\"s\",\"participants\":[],\"key_decisions\":[\"A - B - C - D\",\"A - B\"],\"action_items\":[],\"discussion_points\":[]\x7d"
      "key_decisions" = some (Json.arr
        ([Json.str "A - B - C - D", Json.str "A - B"].flatMap specSplitElem)) :=
  C4_deconcat_amended
    "\x7b\"meeting_summary\":\"s\",\"participants\":[],\"key_decisions\":[\"A - B - C - D\",\"A - B\"],\"action_items\":[],\"discussion_points\":[]\x7d"
    [("meeting_summary", Json.str "s"), ("participants", Json.arr []),
      ("key_decisions", Json.arr [Json.str "A - B - C - D", Json.str "A - B"]),
      ("action_items", Json.arr []), ("discussion_points", Json.arr [])]
    "key_decisions" [Json.str "A - B - C - D", Json.str "A - B"]
    rfl (by decide) rfl (by simp) (by decide)

/-- C4 counterexample: a non-string element (a nested one-string list) whose
`str()` representation carries three delimiters is kept whole by the code,
while the claim's coerce-then-split reading would split it. -/
theorem C4_deconcat_counterexample :
    resultField "\x7b\"meeting_summary\":\"s\",\"participants\":[],\"key_decisions\":[[\"a - b - c - d\"]],\"action_items\":[],\"discussion_points\":[]\x7d"
      "key_decisions" = some (Json.arr [Json.str "['a - b - c - d']"]) ∧
    Json.arr [Json.str "['a - b - c - d']"] ≠
      Json.arr (claimSplitElem (Json.arr [Json.str "a - b - c - d"])) := by
  have hps : pyStr (Json.arr [Json.str "a - b - c - d"]) = "['a - b - c - d']" := by
    simp only [pyStr, pyRepr, pyReprList]
    rfl
  constructor
  · have hpo : parsedObjOf "\x7b\"meeting_summary\":\"s\",\"participants\":[],\"key_decisions\":[[\"a - b - c - d\"]],\"action_items\":[],\"discussion_points\":[]\x7d"
        = some [("meeting_summary", Json.str "s"), ("participants", Json.arr []),
            ("key_decisions", Json.arr [Json.arr [Json.str "a - b - c - d"]]),
            ("action_items", Json.arr []), ("discussion_points", Json.arr [])] := rfl
    have he := extract_eq_of_parsedObj _ _ hpo
    have hfold : split_keys.foldlM deconcatStep
        (ensureKeys [("meeting_summary", Json.str "s"), ("participants", Json.arr []),
          ("key_decisions", Json.arr [Json.arr [Json.str "a - b - c - d"]]),
          ("action_items", Json.arr []), ("discussion_points", Json.arr [])]) =
        some [("meeting_summary", Json.str "s"), ("participants", Json.arr []),
          ("key_decisions",
            Json.arr [Json.str (pyStr (Json.arr [Json.str "a - b - c - d"]))]),
          ("action_items", Json.arr []), ("discussion_points", Json.arr [])] := rfl
    have hex : extract_json_from_response
        "\x7b\"meeting_summary\":\"s\",\"participants\":[],\"key_decisions\":[[\"a - b - c - d\"]],\"action_items\":[],\"discussion_points\":[]\x7d"
        = some (Json.obj [("meeting_summary", Json.str "s"), ("participants", Json.arr []),
            ("key_decisions", Json.arr [Json.str "['a - b - c - d']"]),
            ("action_items", Json.arr []), ("discussion_points", Json.arr [])]) := by
      rw [he, hfold, hps]
      rfl
    unfold resultField
    rw [hex]
    rfl
  · have hred : claimSplitElem (Json.arr [Json.str "a - b - c - d"]) =
        [Json.str "['a", Json.str "b", Json.str "c", Json.str "d']"] := by
      simp only [claimSplitElem]
      rw [hps]
      rfl
    rw [hred]
    simp

/-- C6 (amended): raw text whose stripped form is a valid JSON object with
all five fields present, the three multi-item fields being lists of strings
that are already trimmed and carry at most two delimiters, is returned
exactly as parsed. -/
theorem C6_roundtrip_amended (rt : String) (kvs : List (String × Json))
    (hh : (pyStrip rt).toList.head? = some openBrace)
    (hl : (pyStrip rt).toList.getLast? = some closeBrace)
    (hld : loads (pyStrip rt) = some (Json.obj kvs))
    (h5 : required_keys.all (containsKey kvs) = true)
    (hfields : split_keys.all (fun k => roundTripOkField (lookupKey kvs k)) = true) :
    extract_json_from_response rt = some (Json.obj kvs) := by
  have he := extract_eq_of_parsedObj rt kvs (parsedObjOf_of_head_last rt kvs hh hl hld)
  rw [he]
  rw [ensureKeys_id kvs (fun k hk => List.all_eq_true.mp h5 k hk)]
  rw [foldlM_deconcat_id split_keys kvs
    (fun k hk => by simpa using List.all_eq_true.mp hfields k hk)]
  rfl

/-- C6 witness: a complete, well-typed, trimmed record round-trips
unchanged. -/
theorem C6_roundtrip_amended_witness :
    extract_json_from_response
      "\x7b\"meeting_summary\":\"s\",\"participants\":[],\"key_decisions\":[\"a\"],\"action_items\":[],\"discussion_points\":[]\x7d"
      = some (Json.obj [("meeting_summary", Json.str "s"), ("participants", Json.arr []),
          ("key_decisions", Json.arr [Json.str "a"]), ("action_items", Json.arr []),
          ("discussion_points", Json.arr [])]) :=
  C6_roundtrip_amended
    "\x7b\"meeting_summary\":\"s\",\"participants\":[],\"key_decisions\":[\"a\"],\"action_items\":[],\"discussion_points\":[]\x7d"
    [("meeting_summary", Json.str "s"), ("participants", Json.arr []),
      ("key_decisions", Json.arr [Json.str "a"]), ("action_items", Json.arr []),
      ("discussion_points", Json.arr [])]
    (by decide) (by decide) rfl (by decide) (by decide)

/-- C6 counterexample: an input that is a valid JSON object with all five
fields correctly typed and no over-concatenated strings, whose untrimmed
list element `" a"` comes back trimmed — the round trip is not the
identity. -/
theorem C6_roundtrip_counterexample :
    loads "\x7b\"meeting_summary\":\"s\",\"participants\":[],\"key_decisions\":[\" a\"],\"action_items\":[],\"discussion_points\":[]\x7d"
      = some (Json.obj [("meeting_summary", Json.str "s"), ("participants", Json.arr []),
          ("key_decisions", Json.arr [Json.str " a"]), ("action_items", Json.arr []),
          ("discussion_points", Json.arr [])]) ∧
    extract_json_from_response
      "\x7b\"meeting_summary\":\"s\",\"participants\":[],\"key_decisions\":[\" a\"],\"action_items\":[],\"discussion_points\":[]\x7d"
      = some (Json.obj [("meeting_summary", Json.str "s"), ("participants", Json.arr []),
          ("key_decisions", Json.arr [Json.str "a"]), ("action_items", Json.arr []),
          ("discussion_points", Json.arr [])]) ∧
    Json.obj [("meeting_summary", Json.str "s"), ("participants", Json.arr []),
        ("key_decisions", Json.arr [Json.str " a"]), ("action_items", Json.arr []),
        ("discussion_points", Json.arr [])] ≠
      Json.obj [("meeting_summary", Json.str "s"), ("participants", Json.arr []),
        ("key_decisions", Json.arr [Json.str "a"]), ("action_items", Json.arr []),
        ("discussion_points", Json.arr [])] :=
  ⟨rfl, rfl, by simp⟩
